import Mathlib

/-!
Shallow embedding of the `ShadowLedger` Solidity contract.

Addresses and encrypted-value handles are modelled as natural numbers
(address 0 is the null address).  The FHEVM coprocessor is modelled by an
explicit `Fhe` state: a fresh-handle counter, a valuation of handles to
128-bit plaintexts, and the ACL as a list of `(handle, principal)` grants.
Solidity mappings become total functions with the default struct value at
unset keys (`exists` fields renamed `rexists` / `dexists` / `cexists`
because `exists` is reserved in Lean).  Every external function becomes a
Lean function `... → Option ...`; `none` is a revert, and by the EVM's
transactional semantics a reverted call leaves the caller-observed state
unchanged.
-/

/-- Modulus of the `euint128` encrypted-integer type. -/
def M128 : Nat := 2 ^ 128

/-- enum RecordType { Income, Expense } -/
inductive RecordType where
  | Income
  | Expense
deriving DecidableEq, BEq, Repr

/-- struct Record (field `exists` renamed `rexists`).  `amount` holds the
FHE handle of the encrypted amount. -/
structure Record where
  id : Nat
  recordType : RecordType
  amount : Nat
  departmentId : Nat
  projectId : Nat
  description : String
  timestamp : Nat
  creator : Nat
  rexists : Bool
deriving Repr

/-- Default value of a `Record` mapping slot. -/
def Record.empty : Record :=
  { id := 0, recordType := RecordType.Income, amount := 0, departmentId := 0,
    projectId := 0, description := "", timestamp := 0, creator := 0, rexists := false }

/-- struct Department (field `exists` renamed `dexists`). -/
structure Department where
  id : Nat
  name : String
  members : List Nat
  admin : Nat
  createdAt : Nat
  dexists : Bool
deriving Repr

/-- Default value of a `Department` mapping slot. -/
def Department.empty : Department :=
  { id := 0, name := "", members := [], admin := 0, createdAt := 0, dexists := false }

/-- struct Calculation (field `exists` renamed `cexists`).  `result` holds
the FHE handle of the encrypted result. -/
structure Calculation where
  id : Nat
  calculationType : RecordType
  result : Nat
  departmentIds : List Nat
  projectIds : List Nat
  timestamp : Nat
  cexists : Bool
deriving Repr

/-- Default value of a `Calculation` mapping slot. -/
def Calculation.empty : Calculation :=
  { id := 0, calculationType := RecordType.Income, result := 0, departmentIds := [],
    projectIds := [], timestamp := 0, cexists := false }

/-- State of the FHE coprocessor: fresh-handle counter, plaintext valuation
of handles, and the access-control list of decrypt grants. -/
structure Fhe where
  nextHandle : Nat
  val : Nat → Nat
  acl : List (Nat × Nat)

/-- Allocate a fresh handle holding `v` reduced into the 128-bit range
(`FHE.asEuint128` / `FHE.fromExternal` / results of `FHE.add`, `FHE.sub`). -/
def Fhe.alloc (f : Fhe) (v : Nat) : Nat × Fhe :=
  (f.nextHandle,
   { nextHandle := f.nextHandle + 1,
     val := fun h => if h = f.nextHandle then v % M128 else f.val h,
     acl := f.acl })

/-- `FHE.allow h p` / `FHE.allowThis h`: record a decrypt grant. -/
def Fhe.allow (f : Fhe) (h p : Nat) : Fhe :=
  { f with acl := (h, p) :: f.acl }

/-- `FHE.add` on handles: fresh handle holding the wrapping sum. -/
def Fhe.addH (f : Fhe) (a b : Nat) : Nat × Fhe :=
  f.alloc (f.val a + f.val b)

/-- `FHE.sub` on handles: fresh handle holding the wrapping (modulo `2^128`)
difference. -/
def Fhe.subH (f : Fhe) (a b : Nat) : Nat × Fhe :=
  f.alloc (f.val a + (M128 - f.val b % M128))

/-- A principal `p` holds a decrypt capability on handle `h`. -/
def Fhe.HasGrant (f : Fhe) (h p : Nat) : Prop :=
  (h, p) ∈ f.acl

instance (f : Fhe) (h p : Nat) : Decidable (f.HasGrant h p) := by
  unfold Fhe.HasGrant; infer_instance

/-- Full contract state of `ShadowLedger` (storage variables, minus events,
plus the contract address and the modelled FHE coprocessor state). -/
structure ShadowLedger where
  thisAddr : Nat
  systemAdmin : Nat
  recordCounter : Nat
  departmentCounter : Nat
  calculationCounter : Nat
  records : Nat → Record
  departments : Nat → Department
  calculations : Nat → Calculation
  userDepartments : Nat → List Nat
  departmentAdmins : Nat → Nat
  auditors : Nat → Bool
  fhe : Fhe

/-- The constructor: seeds the System department (id 1) with an empty
member list and records the deployer as system admin. -/
def construct (deployer thisAddr ts : Nat) : ShadowLedger :=
  { thisAddr := thisAddr
    systemAdmin := deployer
    recordCounter := 0
    departmentCounter := 1
    calculationCounter := 0
    records := fun _ => Record.empty
    departments := fun d =>
      if d = 1 then
        { id := 1, name := "System", members := [], admin := deployer,
          createdAt := ts, dexists := true }
      else Department.empty
    calculations := fun _ => Calculation.empty
    userDepartments := fun _ => []
    departmentAdmins := fun d => if d = 1 then deployer else 0
    auditors := fun _ => false
    fhe := { nextHandle := 0, val := fun _ => 0, acl := [] } }

/-- `_isDepartmentMember`: department exists and the user is its admin or
appears in its member list. -/
def isDepartmentMember (s : ShadowLedger) (user departmentId : Nat) : Bool :=
  if (s.departments departmentId).dexists = false then false
  else if (s.departments departmentId).admin = user then true
  else (s.departments departmentId).members.contains user

/-- `createDepartment(name, admin)`; `sender` is `msg.sender`, `ts` is
`block.timestamp`.  Returns the new department id. -/
def createDepartment (sender : Nat) (name : String) (admin ts : Nat)
    (s : ShadowLedger) : Option (Nat × ShadowLedger) :=
  if sender = s.systemAdmin then
    if name = "" then none
    else if admin = 0 then none
    else
      let departmentId := s.departmentCounter + 1
      some (departmentId,
        { s with
          departmentCounter := departmentId
          departments := fun d =>
            if d = departmentId then
              { id := departmentId, name := name, members := [admin],
                admin := admin, createdAt := ts, dexists := true }
            else s.departments d
          departmentAdmins := fun d =>
            if d = departmentId then admin else s.departmentAdmins d
          userDepartments := fun u =>
            if u = admin then s.userDepartments admin ++ [departmentId]
            else s.userDepartments u })
  else none

/-- `addDepartmentMember(departmentId, member)`. -/
def addDepartmentMember (sender departmentId member : Nat)
    (s : ShadowLedger) : Option ShadowLedger :=
  if s.departmentAdmins departmentId = sender then
    if (s.departments departmentId).dexists then
      if member = 0 then none
      else if isDepartmentMember s member departmentId then none
      else
        let dept := s.departments departmentId
        some { s with
          departments := fun d =>
            if d = departmentId then { dept with members := dept.members ++ [member] }
            else s.departments d
          userDepartments := fun u =>
            if u = member then s.userDepartments member ++ [departmentId]
            else s.userDepartments u }
    else none
  else none

/-- Swap-and-pop removal of the first occurrence of `x`, mirroring the
Solidity loop `members[i] = members[members.length - 1]; members.pop()`. -/
def swapPop : List Nat → Nat → List Nat
  | [], _ => []
  | y :: ys, x =>
    if y = x then
      if ys.isEmpty then [] else ys.getLastD 0 :: ys.dropLast
    else y :: swapPop ys x

/-- `removeDepartmentMember(departmentId, member)`. -/
def removeDepartmentMember (sender departmentId member : Nat)
    (s : ShadowLedger) : Option ShadowLedger :=
  if s.departmentAdmins departmentId = sender then
    if (s.departments departmentId).dexists then
      if isDepartmentMember s member departmentId then
        if member = (s.departments departmentId).admin then none
        else
          let dept := s.departments departmentId
          some { s with
            departments := fun d =>
              if d = departmentId then { dept with members := swapPop dept.members member }
              else s.departments d
            userDepartments := fun u =>
              if u = member then swapPop (s.userDepartments member) departmentId
              else s.userDepartments u }
      else none
    else none
  else none

/-- `getUserDepartments(user)`: reverse-index read. -/
def getUserDepartments (s : ShadowLedger) (user : Nat) : List Nat :=
  s.userDepartments user

/-- `createRecord(recordType, encryptedAmount, inputProof, departmentId,
projectId, description)`.  `amountVal` is the plaintext carried by the
external ciphertext, `proofOk` models whether its inclusion proof
verifies, `ts` is `block.timestamp`.  Returns the new record id. -/
def createRecord (sender : Nat) (recordType : RecordType) (amountVal : Nat)
    (proofOk : Bool) (departmentId projectId : Nat) (description : String)
    (ts : Nat) (s : ShadowLedger) : Option (Nat × ShadowLedger) :=
  if isDepartmentMember s sender departmentId then
    if (s.departments departmentId).dexists then
      if description = "" then none
      else if proofOk then
        let a := s.fhe.alloc amountVal
        let recordId := s.recordCounter + 1
        let rec0 : Record :=
          { id := recordId, recordType := recordType, amount := a.1,
            departmentId := departmentId, projectId := projectId,
            description := description, timestamp := ts, creator := sender,
            rexists := true }
        let f1 := (a.2.allow a.1 s.thisAddr).allow a.1 sender
        let f2 :=
          if s.departmentAdmins departmentId = sender then f1.allow a.1 sender
          else f1
        some (recordId,
          { s with
            recordCounter := recordId
            records := fun i => if i = recordId then rec0 else s.records i
            fhe := f2 })
      else none
    else none
  else none

/-- The record filter used by the aggregation loops: the record at index
`j` exists, belongs to one of `departmentIds`, passes the project filter,
and has the requested type. -/
def recordMatches (s : ShadowLedger) (departmentIds : List Nat)
    (projectId : Nat) (rt : RecordType) (j : Nat) : Bool :=
  (s.records j).rexists &&
    departmentIds.contains (s.records j).departmentId &&
    (projectId == 0 || (s.records j).projectId == projectId) &&
    ((s.records j).recordType == rt)

/-- Shared body of `calculateTotalIncome` / `calculateTotalExpense` (the
two Solidity functions are verbatim copies differing only in the record
type tested).  Returns the handle of the homomorphic total. -/
def calculateTotal (rt : RecordType) (sender : Nat) (departmentIds : List Nat)
    (projectId : Nat) (s : ShadowLedger) : Option (Nat × ShadowLedger) :=
  if departmentIds.all (fun d => (s.departments d).dexists) then
    let a0 := s.fhe.alloc 0
    let q := (List.range' 1 s.recordCounter).foldl
      (fun (acc : Nat × Fhe) j =>
        if recordMatches s departmentIds projectId rt j then
          acc.2.addH acc.1 ((s.records j).amount)
        else acc) a0
    some (q.1, { s with fhe := (q.2.allow q.1 s.thisAddr).allow q.1 sender })
  else none

/-- `calculateTotalIncome(departmentIds, projectId)`. -/
def calculateTotalIncome (sender : Nat) (departmentIds : List Nat)
    (projectId : Nat) (s : ShadowLedger) : Option (Nat × ShadowLedger) :=
  calculateTotal RecordType.Income sender departmentIds projectId s

/-- `calculateTotalExpense(departmentIds, projectId)`. -/
def calculateTotalExpense (sender : Nat) (departmentIds : List Nat)
    (projectId : Nat) (s : ShadowLedger) : Option (Nat × ShadowLedger) :=
  calculateTotal RecordType.Expense sender departmentIds projectId s

/-- `calculateNetIncome(departmentIds, projectId)`: the two totals are
obtained through external self-calls (`this.calculateTotalIncome(...)`),
so their `msg.sender` is the contract itself; the difference is wrapping
`FHE.sub`. -/
def calculateNetIncome (sender : Nat) (departmentIds : List Nat)
    (projectId : Nat) (s : ShadowLedger) : Option (Nat × ShadowLedger) :=
  match calculateTotalIncome s.thisAddr departmentIds projectId s with
  | none => none
  | some (totalIncome, s1) =>
    match calculateTotalExpense s1.thisAddr departmentIds projectId s1 with
    | none => none
    | some (totalExpense, s2) =>
      let a := s2.fhe.subH totalIncome totalExpense
      some (a.1, { s2 with fhe := (a.2.allow a.1 s2.thisAddr).allow a.1 sender })

/-- `saveCalculation(...)`: no access gate; stores an externally computed
encrypted result (`resultVal` is its plaintext, `proofOk` models proof
verification).  The `description` argument is accepted but, as in the
source, not stored (the `Calculation` struct has no description field). -/
def saveCalculation (sender : Nat) (calculationType : RecordType)
    (resultVal : Nat) (proofOk : Bool) (departmentIds projectIds : List Nat)
    (description : String) (ts : Nat) (s : ShadowLedger) :
    Option (Nat × ShadowLedger) :=
  if proofOk then
    let a := s.fhe.alloc resultVal
    let calculationId := s.calculationCounter + 1
    let f1 := (a.2.allow a.1 s.thisAddr).allow a.1 sender
    let _unused := description
    some (calculationId,
      { s with
        calculationCounter := calculationId
        calculations := fun i =>
          if i = calculationId then
            { id := calculationId, calculationType := calculationType,
              result := a.1, departmentIds := departmentIds,
              projectIds := projectIds, timestamp := ts, cexists := true }
          else s.calculations i
        fhe := f1 })
  else none

/-- `addAuditor(auditor)`: marks the auditor and grants it decrypt
capability on every existing record amount by a full scan. -/
def addAuditor (sender auditor : Nat) (s : ShadowLedger) :
    Option ShadowLedger :=
  if sender = s.systemAdmin then
    if auditor = 0 then none
    else if s.auditors auditor then none
    else
      let f := (List.range' 1 s.recordCounter).foldl
        (fun (f : Fhe) i =>
          if (s.records i).rexists then f.allow (s.records i).amount auditor
          else f) s.fhe
      some { s with
        auditors := fun a => if a = auditor then true else s.auditors a
        fhe := f }
  else none

/-- `removeAuditor(auditor)`: clears the flag only; no grant is retracted. -/
def removeAuditor (sender auditor : Nat) (s : ShadowLedger) :
    Option ShadowLedger :=
  if sender = s.systemAdmin then
    if s.auditors auditor then
      some { s with auditors := fun a => if a = auditor then false else s.auditors a }
    else none
  else none

/-- The paginated forward scan shared by `getDepartmentRecords` and
`getAllRecords`: walk ids `1..counter`, skip the first `offset` ids
satisfying `p`, collect up to `limit` further matches. -/
def pageScan (p : Nat → Bool) (counter offset limit : Nat) : List Nat :=
  ((List.range' 1 counter).foldl
    (fun (st : Nat × List Nat) i =>
      if st.2.length < limit && p i then
        if st.1 < offset then (st.1 + 1, st.2) else (st.1, st.2 ++ [i])
      else st)
    (0, [])).2

/-- `getDepartmentRecords(departmentId, offset, limit)`. -/
def getDepartmentRecords (sender departmentId offset limit : Nat)
    (s : ShadowLedger) : Option (List Nat) :=
  if isDepartmentMember s sender departmentId then
    if (s.departments departmentId).dexists then
      some (pageScan
        (fun i => (s.records i).rexists && ((s.records i).departmentId == departmentId))
        s.recordCounter offset limit)
    else none
  else none

/-- `getAllRecords(offset, limit)` (auditor-gated, no department filter). -/
def getAllRecords (sender offset limit : Nat) (s : ShadowLedger) :
    Option (List Nat) :=
  if s.auditors sender then
    some (pageScan (fun i => (s.records i).rexists) s.recordCounter offset limit)
  else none

/-- `isAuditor(auditor)`. -/
def isAuditorView (s : ShadowLedger) (auditor : Nat) : Bool :=
  s.auditors auditor

/-- One external mutating call to the contract, with its `msg.sender` and
(where relevant) `block.timestamp`. -/
inductive Call where
  | createDepartment (sender : Nat) (name : String) (admin ts : Nat)
  | addDepartmentMember (sender departmentId member : Nat)
  | removeDepartmentMember (sender departmentId member : Nat)
  | createRecord (sender : Nat) (recordType : RecordType) (amountVal : Nat)
      (proofOk : Bool) (departmentId projectId : Nat) (description : String) (ts : Nat)
  | addAuditor (sender auditor : Nat)
  | removeAuditor (sender auditor : Nat)
  | saveCalculation (sender : Nat) (calculationType : RecordType) (resultVal : Nat)
      (proofOk : Bool) (departmentIds projectIds : List Nat) (description : String) (ts : Nat)
  | calculateTotalIncome (sender : Nat) (departmentIds : List Nat) (projectId : Nat)
  | calculateTotalExpense (sender : Nat) (departmentIds : List Nat) (projectId : Nat)
  | calculateNetIncome (sender : Nat) (departmentIds : List Nat) (projectId : Nat)

/-- Execute one call, dropping the return value: `none` is a revert. -/
def stepCall : Call → ShadowLedger → Option ShadowLedger
  | Call.createDepartment sender name admin ts, s =>
      (createDepartment sender name admin ts s).map Prod.snd
  | Call.addDepartmentMember sender d m, s => addDepartmentMember sender d m s
  | Call.removeDepartmentMember sender d m, s => removeDepartmentMember sender d m s
  | Call.createRecord sender rt v pok d pid desc ts, s =>
      (createRecord sender rt v pok d pid desc ts s).map Prod.snd
  | Call.addAuditor sender a, s => addAuditor sender a s
  | Call.removeAuditor sender a, s => removeAuditor sender a s
  | Call.saveCalculation sender ct v pok ds ps desc ts, s =>
      (saveCalculation sender ct v pok ds ps desc ts s).map Prod.snd
  | Call.calculateTotalIncome sender ds pid, s =>
      (calculateTotalIncome sender ds pid s).map Prod.snd
  | Call.calculateTotalExpense sender ds pid, s =>
      (calculateTotalExpense sender ds pid s).map Prod.snd
  | Call.calculateNetIncome sender ds pid, s =>
      (calculateNetIncome sender ds pid s).map Prod.snd

/-- The precondition of each call, written out from the `require` clauses
of the source: a call succeeds exactly when its precondition holds. -/
def Pre : Call → ShadowLedger → Bool
  | Call.createDepartment sender name admin _, s =>
      (sender == s.systemAdmin) && !(name == "") && !(admin == 0)
  | Call.addDepartmentMember sender d m, s =>
      (s.departmentAdmins d == sender) && (s.departments d).dexists &&
        !(m == 0) && !(isDepartmentMember s m d)
  | Call.removeDepartmentMember sender d m, s =>
      (s.departmentAdmins d == sender) && (s.departments d).dexists &&
        isDepartmentMember s m d && !(m == (s.departments d).admin)
  | Call.createRecord sender _ _ pok d _ desc _, s =>
      isDepartmentMember s sender d && (s.departments d).dexists &&
        !(desc == "") && pok
  | Call.addAuditor sender a, s =>
      (sender == s.systemAdmin) && !(a == 0) && !(s.auditors a)
  | Call.removeAuditor sender a, s =>
      (sender == s.systemAdmin) && s.auditors a
  | Call.saveCalculation _ _ _ pok _ _ _ _, _ => pok
  | Call.calculateTotalIncome _ ds _, s =>
      ds.all (fun d => (s.departments d).dexists)
  | Call.calculateTotalExpense _ ds _, s =>
      ds.all (fun d => (s.departments d).dexists)
  | Call.calculateNetIncome _ ds _, s =>
      ds.all (fun d => (s.departments d).dexists)

/-- States reachable from deployment by any sequence of successful calls. -/
inductive Reachable : ShadowLedger → Prop where
  | deployed (deployer thisAddr ts : Nat) :
      Reachable (construct deployer thisAddr ts)
  | step (c : Call) (s s' : ShadowLedger) :
      Reachable s → stepCall c s = some s' → Reachable s'

/-- The homomorphic-accumulation fold used by the aggregation engine. -/
def addFold (amt : Nat → Nat) (p : Nat × Fhe) (l : List Nat) : Nat × Fhe :=
  l.foldl (fun acc j => Fhe.addH acc.2 acc.1 (amt j)) p

/-- Sum of the plaintext amounts of the records selected by the aggregation
filter: existing, `departmentId` in the queried list, project filter
passed, and of the requested type. -/
def matchSum (s : ShadowLedger) (dids : List Nat) (pid : Nat) (rt : RecordType) : Nat :=
  (((List.range' 1 s.recordCounter).filter (recordMatches s dids pid rt)).map
    (fun j => s.fhe.val (s.records j).amount)).sum

/-! ### Concrete executions used to exercise the theorems -/

/-- Caller-observed state of one call: the new state on success, the
unchanged pre-state on revert (the substrate rolls a reverted call back). -/
def stepD (c : Call) (s : ShadowLedger) : ShadowLedger := (stepCall c s).getD s

/-- Deployment by principal 100 at contract address 55. -/
def W0 : ShadowLedger := construct 100 55 0

/-- Department 2 "Engineering", admin 2 (alice). -/
def W1 : ShadowLedger := stepD (Call.createDepartment 100 "Engineering" 2 1) W0

/-- Department 3 "Sales", admin 3 (bob). -/
def W2 : ShadowLedger := stepD (Call.createDepartment 100 "Sales" 3 2) W1

/-- Record 1: income 1000 in department 2 by alice. -/
def W3 : ShadowLedger :=
  stepD (Call.createRecord 2 RecordType.Income 1000 true 2 0 "Income 1" 3) W2

/-- Record 2: income 2000 in department 3 by bob. -/
def W4 : ShadowLedger :=
  stepD (Call.createRecord 3 RecordType.Income 2000 true 3 0 "Income 2" 4) W3

/-- Record 3: expense 500 in department 2 by alice. -/
def W5 : ShadowLedger :=
  stepD (Call.createRecord 2 RecordType.Expense 500 true 2 0 "Expense 1" 5) W4

/-- Principal 4 (charlie) joins department 2 as a plain member. -/
def W6 : ShadowLedger := stepD (Call.addDepartmentMember 2 2 4) W5

/-- Auditor 4 promoted after records 1 and 2 exist. -/
def W4A : ShadowLedger := stepD (Call.addAuditor 100 4) W4

/-! ### Basic facts about the FHE coprocessor model -/

@[simp]
theorem Fhe.nextHandle_alloc (f : Fhe) (v : Nat) :
    (f.alloc v).2.nextHandle = f.nextHandle + 1 := rfl

@[simp]
theorem Fhe.fst_alloc (f : Fhe) (v : Nat) : (f.alloc v).1 = f.nextHandle := rfl

@[simp]
theorem Fhe.val_alloc_self (f : Fhe) (v : Nat) :
    (f.alloc v).2.val (f.alloc v).1 = v % M128 := by
  simp [Fhe.alloc]

theorem Fhe.val_alloc_ne (f : Fhe) (v : Nat) {h : Nat} (hh : h ≠ f.nextHandle) :
    (f.alloc v).2.val h = f.val h := by
  simp [Fhe.alloc, hh]

@[simp]
theorem Fhe.val_allow (f : Fhe) (h p g : Nat) : (f.allow h p).val g = f.val g := rfl

@[simp]
theorem Fhe.nextHandle_allow (f : Fhe) (h p : Nat) :
    (f.allow h p).nextHandle = f.nextHandle := rfl

@[simp]
theorem Fhe.acl_allow (f : Fhe) (h p : Nat) :
    (f.allow h p).acl = (h, p) :: f.acl := rfl

@[simp]
theorem Fhe.acl_alloc (f : Fhe) (v : Nat) : (f.alloc v).2.acl = f.acl := rfl

theorem M128_pos : 0 < M128 := by decide

/-! ### Folds with a boolean guard -/

theorem foldl_guard_eq_foldl_filter {α β : Type} (p : α → Bool) (g : β → α → β) :
    ∀ (l : List α) (init : β),
      l.foldl (fun acc x => if p x then g acc x else acc) init =
        (l.filter p).foldl g init := by
  intro l
  induction l with
  | nil => intro init; rfl
  | cons a t ih =>
      intro init
      by_cases h : p a = true <;> simp [List.filter_cons, h, ih]

theorem addFold_nextHandle_mono (amt : Nat → Nat) :
    ∀ (l : List Nat) (p : Nat × Fhe),
      p.2.nextHandle ≤ (addFold amt p l).2.nextHandle := by
  intro l
  induction l with
  | nil => intro p; exact Nat.le_refl _
  | cons j t ih =>
      intro p
      refine Nat.le_trans ?_ (ih (Fhe.addH p.2 p.1 (amt j)))
      simp [Fhe.addH]

theorem addFold_spec (amt : Nat → Nat) :
    ∀ (l : List Nat) (h0 : Nat) (f0 : Fhe),
      (∀ j ∈ l, amt j < f0.nextHandle) → h0 < f0.nextHandle → f0.val h0 < M128 →
      f0.nextHandle ≤ (addFold amt (h0, f0) l).2.nextHandle ∧
      (addFold amt (h0, f0) l).1 < (addFold amt (h0, f0) l).2.nextHandle ∧
      (∀ g, g < f0.nextHandle → (addFold amt (h0, f0) l).2.val g = f0.val g) ∧
      (addFold amt (h0, f0) l).2.val (addFold amt (h0, f0) l).1 =
        (f0.val h0 + (l.map (fun j => f0.val (amt j))).sum) % M128 ∧
      (addFold amt (h0, f0) l).2.val (addFold amt (h0, f0) l).1 < M128 := by
  intro l
  induction l with
  | nil =>
      intro h0 f0 _ hh hv
      refine ⟨Nat.le_refl _, hh, fun g _ => rfl, ?_, hv⟩
      simp [addFold, Nat.mod_eq_of_lt hv]
  | cons j t ih =>
      intro h0 f0 hamts hh hv
      have hstep : addFold amt (h0, f0) (j :: t) =
          addFold amt (Fhe.addH f0 h0 (amt j)) t := rfl
      set f1 := (Fhe.addH f0 h0 (amt j)).2 with hf1
      set h1 := (Fhe.addH f0 h0 (amt j)).1 with hh1
      have hp : Fhe.addH f0 h0 (amt j) = (h1, f1) := rfl
      have hnext1 : f1.nextHandle = f0.nextHandle + 1 := by
        simp [hf1, Fhe.addH]
      have hval1 : f1.val h1 = (f0.val h0 + f0.val (amt j)) % M128 := by
        simp [hf1, hh1, Fhe.addH, Fhe.alloc]
      have hpres1 : ∀ g, g ≠ f0.nextHandle → f1.val g = f0.val g := by
        intro g hg
        simp only [hf1, Fhe.addH]
        exact Fhe.val_alloc_ne f0 _ hg
      have hamts1 : ∀ k ∈ t, amt k < f1.nextHandle := by
        intro k hk
        rw [hnext1]
        exact Nat.lt_succ_of_lt (hamts k (List.mem_cons_of_mem j hk))
      have hh1lt : h1 < f1.nextHandle := by
        rw [hnext1]
        simp [hh1, Fhe.addH]
      have hv1 : f1.val h1 < M128 := by
        rw [hval1]; exact Nat.mod_lt _ M128_pos
      obtain ⟨ihA, ihB, ihC, ihD, ihE⟩ := ih h1 f1 hamts1 hh1lt hv1
      rw [hstep, hp]
      refine ⟨?_, ihB, ?_, ?_, ihE⟩
      · refine Nat.le_trans ?_ ihA
        rw [hnext1]
        exact Nat.le_succ _
      · intro g hg
        have hg1 : g < f1.nextHandle := by
          rw [hnext1]; exact Nat.lt_succ_of_lt hg
        rw [ihC g hg1]
        exact hpres1 g (Nat.ne_of_lt hg)
      · rw [ihD, hval1]
        have hmap : t.map (fun k => f1.val (amt k)) = t.map (fun k => f0.val (amt k)) := by
          refine List.map_congr_left ?_
          intro k hk
          exact hpres1 (amt k) (Nat.ne_of_lt (hamts k (List.mem_cons_of_mem j hk)))
        rw [hmap, Nat.mod_add_mod]
        simp [Nat.add_assoc]

/-! ### Folds that only issue grants -/

theorem allowFold_acl (amt : Nat → Nat) (cond : Nat → Bool) (p : Nat) :
    ∀ (l : List Nat) (f : Fhe),
      (∀ pr ∈ f.acl,
        pr ∈ ((l.foldl (fun f i => if cond i then f.allow (amt i) p else f) f).acl)) ∧
      (∀ i ∈ l, cond i = true →
        (amt i, p) ∈ ((l.foldl (fun f i => if cond i then f.allow (amt i) p else f) f).acl)) := by
  intro l
  induction l with
  | nil => intro f; exact ⟨fun pr hpr => hpr, fun i hi => absurd hi (List.not_mem_nil i)⟩
  | cons j t ih =>
      intro f
      by_cases hj : cond j = true
      · have step : (j :: t).foldl (fun f i => if cond i then f.allow (amt i) p else f) f =
            t.foldl (fun f i => if cond i then f.allow (amt i) p else f) (f.allow (amt j) p) := by
          simp [hj]
        obtain ⟨ihA, ihB⟩ := ih (f.allow (amt j) p)
        constructor
        · intro pr hpr
          rw [step]
          exact ihA pr (List.mem_cons_of_mem _ hpr)
        · intro i hi hcond
          rw [step]
          rcases List.mem_cons.mp hi with h | h
          · subst h
            exact ihA (amt i, p) (List.mem_cons_self _ _)
          · exact ihB i h hcond
      · have step : (j :: t).foldl (fun f i => if cond i then f.allow (amt i) p else f) f =
            t.foldl (fun f i => if cond i then f.allow (amt i) p else f) f := by
          simp [hj]
        obtain ⟨ihA, ihB⟩ := ih f
        constructor
        · intro pr hpr; rw [step]; exact ihA pr hpr
        · intro i hi hcond
          rw [step]
          rcases List.mem_cons.mp hi with h | h
          · subst h; exact absurd hcond hj
          · exact ihB i h hcond

theorem allowFold_frame (amt : Nat → Nat) (cond : Nat → Bool) (p : Nat) :
    ∀ (l : List Nat) (f : Fhe),
      (l.foldl (fun f i => if cond i then f.allow (amt i) p else f) f).nextHandle =
        f.nextHandle ∧
      (l.foldl (fun f i => if cond i then f.allow (amt i) p else f) f).val = f.val := by
  intro l
  induction l with
  | nil => intro f; exact ⟨rfl, rfl⟩
  | cons j t ih =>
      intro f
      by_cases hj : cond j = true <;>
        simpa [hj] using ih _

/-! ### Swap-and-pop removal -/

theorem swapPop_cons (y : Nat) (ys : List Nat) (x : Nat) :
    swapPop (y :: ys) x =
      if y = x then (if ys.isEmpty then [] else ys.getLastD 0 :: ys.dropLast)
      else y :: swapPop ys x := rfl

theorem mem_of_mem_swapPop {l : List Nat} {x y : Nat} :
    y ∈ swapPop l x → y ∈ l := by
  induction l with
  | nil => intro h; exact absurd h (List.not_mem_nil y)
  | cons a t ih =>
      intro h
      rw [swapPop_cons] at h
      by_cases ha : a = x
      · rw [if_pos ha] at h
        cases t with
        | nil => exact absurd h (by simp at h)
        | cons b u =>
          rw [if_neg (by simp)] at h
          have hne : (b :: u : List Nat) ≠ [] := by simp
          rcases List.mem_cons.mp h with h1 | h1
          · subst h1
            refine List.mem_cons_of_mem _ ?_
            rw [List.getLastD_eq_getLast?, List.getLast?_eq_getLast _ hne]
            exact List.getLast_mem hne
          · exact List.mem_cons_of_mem _ (List.mem_of_mem_dropLast h1)
      · rw [if_neg ha] at h
        rcases List.mem_cons.mp h with h1 | h1
        · exact h1 ▸ List.mem_cons_self _ _
        · exact List.mem_cons_of_mem _ (ih h1)

theorem mem_swapPop_of_mem {l : List Nat} {x y : Nat} :
    y ∈ l → y ≠ x → y ∈ swapPop l x := by
  induction l with
  | nil => intro h _; exact absurd h (List.not_mem_nil y)
  | cons a t ih =>
      intro h hne
      rw [swapPop_cons]
      by_cases ha : a = x
      · rw [if_pos ha]
        subst ha
        have hyt : y ∈ t := by
          rcases List.mem_cons.mp h with h1 | h1
          · exact absurd h1 hne
          · exact h1
        cases t with
        | nil => exact absurd hyt (List.not_mem_nil y)
        | cons b u =>
          rw [if_neg (by simp)]
          have hne2 : (b :: u : List Nat) ≠ [] := by simp
          have hsplit : (b :: u).dropLast ++ [(b :: u).getLast hne2] = b :: u :=
            List.dropLast_append_getLast hne2
          rcases List.mem_append.mp (hsplit ▸ hyt) with h2 | h2
          · exact List.mem_cons_of_mem _ h2
          · have hy : y = (b :: u).getLast hne2 := by simpa using h2
            refine List.mem_cons.mpr (Or.inl ?_)
            rw [List.getLastD_eq_getLast?, List.getLast?_eq_getLast _ hne2]
            exact hy
      · rw [if_neg ha]
        rcases List.mem_cons.mp h with h1 | h1
        · exact h1 ▸ List.mem_cons_self _ _
        · exact List.mem_cons_of_mem _ (ih h1 hne)

/-! ### Correctness of the shared aggregation body -/

theorem rexists_of_recordMatches {s : ShadowLedger} {dids : List Nat}
    {pid : Nat} {rt : RecordType} {j : Nat}
    (h : recordMatches s dids pid rt j = true) : (s.records j).rexists = true := by
  unfold recordMatches at h
  simp only [Bool.and_eq_true] at h
  exact h.1.1.1

theorem calculateTotal_spec (rt : RecordType) (sender : Nat) (dids : List Nat)
    (pid : Nat) (s : ShadowLedger)
    (hb : ∀ i, 1 ≤ i → i ≤ s.recordCounter → (s.records i).rexists = true →
      (s.records i).amount < s.fhe.nextHandle)
    (hd : dids.all (fun d => (s.departments d).dexists) = true) :
    ∃ h f, calculateTotal rt sender dids pid s = some (h, { s with fhe := f }) ∧
      f.val h = matchSum s dids pid rt % M128 ∧
      s.fhe.nextHandle ≤ f.nextHandle ∧
      h < f.nextHandle ∧
      (∀ g, g < s.fhe.nextHandle → f.val g = s.fhe.val g) ∧
      f.val h < M128 ∧
      f.HasGrant h sender ∧ f.HasGrant h s.thisAddr := by
  have hjbound : ∀ j ∈ (List.range' 1 s.recordCounter).filter (recordMatches s dids pid rt),
      (s.records j).amount < s.fhe.nextHandle := by
    intro j hj
    obtain ⟨hjr, hjm⟩ := List.mem_filter.mp hj
    obtain ⟨hj1, hj2⟩ := List.mem_range'_1.mp hjr
    exact hb j hj1 (by omega) (rexists_of_recordMatches hjm)
  obtain ⟨specA, specB, specC, specD, specE⟩ :=
    addFold_spec (fun j => (s.records j).amount)
      ((List.range' 1 s.recordCounter).filter (recordMatches s dids pid rt))
      (s.fhe.alloc 0).1 (s.fhe.alloc 0).2
      (by
        intro j hj
        rw [Fhe.nextHandle_alloc]
        exact Nat.lt_succ_of_lt (hjbound j hj))
      (by rw [Fhe.fst_alloc, Fhe.nextHandle_alloc]; exact Nat.lt_succ_self _)
      (by rw [Fhe.val_alloc_self]; exact Nat.mod_lt _ M128_pos)
  set L := (List.range' 1 s.recordCounter).filter (recordMatches s dids pid rt) with hL
  set Q := addFold (fun j => (s.records j).amount) (s.fhe.alloc 0) L with hQ
  have hfold : List.foldl
      (fun (acc : Nat × Fhe) j =>
        if recordMatches s dids pid rt j then acc.2.addH acc.1 ((s.records j).amount)
        else acc)
      (s.fhe.alloc 0) (List.range' 1 s.recordCounter) = Q := by
    rw [foldl_guard_eq_foldl_filter (recordMatches s dids pid rt)
      (fun (acc : Nat × Fhe) j => Fhe.addH acc.2 acc.1 ((s.records j).amount))]
    rfl
  have hcalc : calculateTotal rt sender dids pid s =
      some (Q.1, { s with fhe := (Q.2.allow Q.1 s.thisAddr).allow Q.1 sender }) := by
    unfold calculateTotal
    rw [if_pos hd]
    dsimp only
    rw [hfold]
  refine ⟨Q.1, (Q.2.allow Q.1 s.thisAddr).allow Q.1 sender, hcalc, ?_, ?_, ?_, ?_, ?_, ?_, ?_⟩
  · rw [Fhe.val_allow, Fhe.val_allow, specD]
    have hm : L.map (fun j => (s.fhe.alloc 0).2.val (s.records j).amount) =
        L.map (fun j => s.fhe.val (s.records j).amount) := by
      refine List.map_congr_left ?_
      intro j hj
      exact Fhe.val_alloc_ne s.fhe 0 (Nat.ne_of_lt (hjbound j hj))
    rw [hm, Fhe.val_alloc_self]
    unfold matchSum
    rw [← hL]
    simp [Nat.mod_add_mod]
  · rw [Fhe.nextHandle_allow, Fhe.nextHandle_allow]
    exact Nat.le_trans (Nat.le_succ _) specA
  · rw [Fhe.nextHandle_allow, Fhe.nextHandle_allow]; exact specB
  · intro g hg
    rw [Fhe.val_allow, Fhe.val_allow]
    rw [specC g (by rw [Fhe.nextHandle_alloc]; exact Nat.lt_succ_of_lt hg)]
    exact Fhe.val_alloc_ne s.fhe 0 (Nat.ne_of_lt hg)
  · rw [Fhe.val_allow, Fhe.val_allow]; exact specE
  · unfold Fhe.HasGrant
    rw [Fhe.acl_allow]
    exact List.mem_cons_self _ _
  · unfold Fhe.HasGrant
    rw [Fhe.acl_allow, Fhe.acl_allow]
    exact List.mem_cons_of_mem _ (List.mem_cons_self _ _)

/-! ### The reachable-state invariant -/

/-- Invariant maintained by every reachable state: the department counter
is seeded, the System department exists and is owned by the system admin,
every department other than the System department contains its admin in
its member list, the System department id is absent from the system
admin's reverse index, and every stored record's amount handle was
allocated by the modelled coprocessor. -/
structure LedgerInv (s : ShadowLedger) : Prop where
  counter_pos : 1 ≤ s.departmentCounter
  sys_exists : (s.departments 1).dexists = true
  sys_admin : (s.departments 1).admin = s.systemAdmin
  admin_mem : ∀ d, d ≠ 1 → (s.departments d).dexists = true →
      (s.departments d).admin ∈ (s.departments d).members
  sys_not_indexed : (1 : Nat) ∉ s.userDepartments s.systemAdmin
  handles_lt : ∀ i, 1 ≤ i → i ≤ s.recordCounter → (s.records i).rexists = true →
      (s.records i).amount < s.fhe.nextHandle

theorem construct_inv (deployer thisAddr ts : Nat) :
    LedgerInv (construct deployer thisAddr ts) := by
  refine ⟨Nat.le_refl 1, rfl, rfl, ?_, ?_, ?_⟩
  · intro d hd hex
    simp only [construct] at hex
    rw [if_neg hd] at hex
    simp [Department.empty] at hex
  · intro hmem
    simp [construct] at hmem
  · intro i h1 h2 _
    simp only [construct] at h2
    omega

theorem createDepartment_inv {sender : Nat} {name : String} {admin ts r : Nat}
    {s s' : ShadowLedger} (hI : LedgerInv s)
    (h : createDepartment sender name admin ts s = some (r, s')) : LedgerInv s' := by
  unfold createDepartment at h
  by_cases h1 : sender = s.systemAdmin
  · rw [if_pos h1] at h
    by_cases h2 : name = ""
    · rw [if_pos h2] at h; exact Option.noConfusion h
    rw [if_neg h2] at h
    by_cases h3 : admin = 0
    · rw [if_pos h3] at h; exact Option.noConfusion h
    rw [if_neg h3] at h
    simp only [Option.some.injEq, Prod.mk.injEq] at h
    obtain ⟨hr, hs⟩ := h
    subst hs
    have hne1 : (1 : Nat) ≠ s.departmentCounter + 1 := by
      have := hI.counter_pos; omega
    refine ⟨?_, ?_, ?_, ?_, ?_, ?_⟩
    · exact Nat.le_succ_of_le hI.counter_pos
    · simp only
      rw [if_neg hne1]
      exact hI.sys_exists
    · simp only
      rw [if_neg hne1]
      exact hI.sys_admin
    · intro d hd hex
      simp only at hex ⊢
      by_cases hdn : d = s.departmentCounter + 1
      · rw [if_pos hdn] at hex ⊢
        exact List.mem_cons_self _ _
      · rw [if_neg hdn] at hex ⊢
        exact hI.admin_mem d hd hex
    · simp only
      by_cases hsa : s.systemAdmin = admin
      · rw [if_pos hsa]
        intro hmem
        rcases List.mem_append.mp hmem with hm | hm
        · exact hI.sys_not_indexed (hsa ▸ hm)
        · have : (1 : Nat) = s.departmentCounter + 1 := by simpa using hm
          exact hne1 this
      · rw [if_neg hsa]
        exact hI.sys_not_indexed
    · exact hI.handles_lt
  · rw [if_neg h1] at h; exact Option.noConfusion h

theorem addDepartmentMember_inv {sender departmentId member : Nat}
    {s s' : ShadowLedger} (hI : LedgerInv s)
    (h : addDepartmentMember sender departmentId member s = some s') : LedgerInv s' := by
  unfold addDepartmentMember at h
  by_cases h1 : s.departmentAdmins departmentId = sender
  · rw [if_pos h1] at h
    by_cases h2 : (s.departments departmentId).dexists = true
    · rw [if_pos h2] at h
      by_cases h3 : member = 0
      · rw [if_pos h3] at h; exact Option.noConfusion h
      rw [if_neg h3] at h
      by_cases h4 : isDepartmentMember s member departmentId = true
      · rw [if_pos h4] at h; exact Option.noConfusion h
      rw [if_neg h4] at h
      simp only [Option.some.injEq] at h
      subst h
      refine ⟨hI.counter_pos, ?_, ?_, ?_, ?_, hI.handles_lt⟩
      · simp only
        by_cases hd1 : (1 : Nat) = departmentId
        · rw [if_pos hd1]
          subst hd1
          exact hI.sys_exists
        · rw [if_neg hd1]
          exact hI.sys_exists
      · simp only
        by_cases hd1 : (1 : Nat) = departmentId
        · rw [if_pos hd1]
          subst hd1
          exact hI.sys_admin
        · rw [if_neg hd1]
          exact hI.sys_admin
      · intro d hd hex
        simp only at hex ⊢
        by_cases hdn : d = departmentId
        · rw [if_pos hdn] at hex ⊢
          subst hdn
          exact List.mem_append_left _ (hI.admin_mem d hd h2)
        · rw [if_neg hdn] at hex ⊢
          exact hI.admin_mem d hd hex
      · simp only
        by_cases hsm : s.systemAdmin = member
        · rw [if_pos hsm]
          have hne1 : departmentId ≠ 1 := by
            intro hq
            subst hq
            apply h4
            unfold isDepartmentMember
            rw [hI.sys_exists]
            simp only [Bool.true_eq_false, if_false]
            rw [hI.sys_admin, if_pos hsm]
          intro hmem
          rcases List.mem_append.mp hmem with hm | hm
          · exact hI.sys_not_indexed (hsm ▸ hm)
          · have : (1 : Nat) = departmentId := by simpa using hm
            exact hne1 this.symm
        · rw [if_neg hsm]
          exact hI.sys_not_indexed
    · rw [if_neg h2] at h; exact Option.noConfusion h
  · rw [if_neg h1] at h; exact Option.noConfusion h

theorem removeDepartmentMember_inv {sender departmentId member : Nat}
    {s s' : ShadowLedger} (hI : LedgerInv s)
    (h : removeDepartmentMember sender departmentId member s = some s') : LedgerInv s' := by
  unfold removeDepartmentMember at h
  by_cases h1 : s.departmentAdmins departmentId = sender
  · rw [if_pos h1] at h
    by_cases h2 : (s.departments departmentId).dexists = true
    · rw [if_pos h2] at h
      by_cases h3 : isDepartmentMember s member departmentId = true
      · rw [if_pos h3] at h
        by_cases h4 : member = (s.departments departmentId).admin
        · rw [if_pos h4] at h; exact Option.noConfusion h
        rw [if_neg h4] at h
        simp only [Option.some.injEq] at h
        subst h
        refine ⟨hI.counter_pos, ?_, ?_, ?_, ?_, hI.handles_lt⟩
        · simp only
          by_cases hd1 : (1 : Nat) = departmentId
          · rw [if_pos hd1]; subst hd1; exact hI.sys_exists
          · rw [if_neg hd1]; exact hI.sys_exists
        · simp only
          by_cases hd1 : (1 : Nat) = departmentId
          · rw [if_pos hd1]; subst hd1; exact hI.sys_admin
          · rw [if_neg hd1]; exact hI.sys_admin
        · intro d hd hex
          simp only at hex ⊢
          by_cases hdn : d = departmentId
          · rw [if_pos hdn] at hex ⊢
            subst hdn
            exact mem_swapPop_of_mem (hI.admin_mem d hd h2)
              (fun hq => h4 hq.symm)
          · rw [if_neg hdn] at hex ⊢
            exact hI.admin_mem d hd hex
        · simp only
          by_cases hsm : s.systemAdmin = member
          · rw [if_pos hsm]
            intro hmem
            exact hI.sys_not_indexed (hsm ▸ mem_of_mem_swapPop hmem)
          · rw [if_neg hsm]
            exact hI.sys_not_indexed
      · rw [if_neg h3] at h; exact Option.noConfusion h
    · rw [if_neg h2] at h; exact Option.noConfusion h
  · rw [if_neg h1] at h; exact Option.noConfusion h

theorem createRecord_inv {sender : Nat} {rt : RecordType} {v : Nat} {pok : Bool}
    {departmentId projectId : Nat} {desc : String} {ts r : Nat}
    {s s' : ShadowLedger} (hI : LedgerInv s)
    (h : createRecord sender rt v pok departmentId projectId desc ts s = some (r, s')) :
    LedgerInv s' := by
  unfold createRecord at h
  by_cases h1 : isDepartmentMember s sender departmentId = true
  · rw [if_pos h1] at h
    by_cases h2 : (s.departments departmentId).dexists = true
    · rw [if_pos h2] at h
      by_cases h3 : desc = ""
      · rw [if_pos h3] at h; exact Option.noConfusion h
      rw [if_neg h3] at h
      by_cases h4 : pok = true
      · rw [if_pos h4] at h
        simp only [Option.some.injEq, Prod.mk.injEq] at h
        obtain ⟨hr, hs⟩ := h
        subst hs
        refine ⟨hI.counter_pos, hI.sys_exists, hI.sys_admin, hI.admin_mem,
          hI.sys_not_indexed, ?_⟩
        intro i hi1 hi2 hex
        simp only at hi2 hex ⊢
        have hnext : (if s.departmentAdmins departmentId = sender then
            (((s.fhe.alloc v).2.allow (s.fhe.alloc v).1 s.thisAddr).allow
              (s.fhe.alloc v).1 sender).allow (s.fhe.alloc v).1 sender
          else ((s.fhe.alloc v).2.allow (s.fhe.alloc v).1 s.thisAddr).allow
              (s.fhe.alloc v).1 sender).nextHandle = s.fhe.nextHandle + 1 := by
          by_cases hadm : s.departmentAdmins departmentId = sender <;>
            simp [hadm]
        rw [hnext]
        by_cases hin : i = s.recordCounter + 1
        · rw [if_pos hin] at hex ⊢
          simp
        · rw [if_neg hin] at hex ⊢
          have : i ≤ s.recordCounter := by omega
          exact Nat.lt_succ_of_lt (hI.handles_lt i hi1 this hex)
      · rw [if_neg h4] at h; exact Option.noConfusion h
    · rw [if_neg h2] at h; exact Option.noConfusion h
  · rw [if_neg h1] at h; exact Option.noConfusion h

theorem addAuditor_inv {sender auditor : Nat} {s s' : ShadowLedger}
    (hI : LedgerInv s) (h : addAuditor sender auditor s = some s') :
    LedgerInv s' := by
  unfold addAuditor at h
  by_cases h1 : sender = s.systemAdmin
  · rw [if_pos h1] at h
    by_cases h2 : auditor = 0
    · rw [if_pos h2] at h; exact Option.noConfusion h
    rw [if_neg h2] at h
    by_cases h3 : s.auditors auditor = true
    · rw [if_pos h3] at h; exact Option.noConfusion h
    rw [if_neg h3] at h
    simp only [Option.some.injEq] at h
    subst h
    refine ⟨hI.counter_pos, hI.sys_exists, hI.sys_admin, hI.admin_mem,
      hI.sys_not_indexed, ?_⟩
    intro i hi1 hi2 hex
    simp only at hi2 hex ⊢
    rw [(allowFold_frame (fun i => (s.records i).amount)
      (fun i => (s.records i).rexists) auditor (List.range' 1 s.recordCounter) s.fhe).1]
    exact hI.handles_lt i hi1 hi2 hex
  · rw [if_neg h1] at h; exact Option.noConfusion h

theorem removeAuditor_inv {sender auditor : Nat} {s s' : ShadowLedger}
    (hI : LedgerInv s) (h : removeAuditor sender auditor s = some s') :
    LedgerInv s' := by
  unfold removeAuditor at h
  by_cases h1 : sender = s.systemAdmin
  · rw [if_pos h1] at h
    by_cases h2 : s.auditors auditor = true
    · rw [if_pos h2] at h
      simp only [Option.some.injEq] at h
      subst h
      exact ⟨hI.counter_pos, hI.sys_exists, hI.sys_admin, hI.admin_mem,
        hI.sys_not_indexed, hI.handles_lt⟩
    · rw [if_neg h2] at h; exact Option.noConfusion h
  · rw [if_neg h1] at h; exact Option.noConfusion h

theorem saveCalculation_inv {sender : Nat} {ct : RecordType} {v : Nat} {pok : Bool}
    {dids pids : List Nat} {desc : String} {ts r : Nat} {s s' : ShadowLedger}
    (hI : LedgerInv s)
    (h : saveCalculation sender ct v pok dids pids desc ts s = some (r, s')) :
    LedgerInv s' := by
  unfold saveCalculation at h
  by_cases h1 : pok = true
  · rw [if_pos h1] at h
    simp only [Option.some.injEq, Prod.mk.injEq] at h
    obtain ⟨hr, hs⟩ := h
    subst hs
    refine ⟨hI.counter_pos, hI.sys_exists, hI.sys_admin, hI.admin_mem,
      hI.sys_not_indexed, ?_⟩
    intro i hi1 hi2 hex
    simp only at hi2 hex ⊢
    exact Nat.lt_succ_of_lt (hI.handles_lt i hi1 hi2 hex)
  · rw [if_neg h1] at h; exact Option.noConfusion h

/-- Shape of a successful aggregation call: only the FHE state changes, and
the fresh-handle counter does not decrease. -/
theorem calculateTotal_out {rt : RecordType} {sender : Nat} {dids : List Nat}
    {pid : Nat} {s : ShadowLedger} {r : Nat} {s' : ShadowLedger}
    (h : calculateTotal rt sender dids pid s = some (r, s')) :
    (∃ f, s' = { s with fhe := f } ∧ s.fhe.nextHandle ≤ f.nextHandle) ∧
      dids.all (fun d => (s.departments d).dexists) = true := by
  unfold calculateTotal at h
  by_cases hd : dids.all (fun d => (s.departments d).dexists) = true
  · rw [if_pos hd] at h
    dsimp only at h
    rw [foldl_guard_eq_foldl_filter (recordMatches s dids pid rt)
      (fun (acc : Nat × Fhe) j => Fhe.addH acc.2 acc.1 ((s.records j).amount))] at h
    simp only [Option.some.injEq, Prod.mk.injEq] at h
    obtain ⟨hr, hs⟩ := h
    refine ⟨⟨_, hs.symm, ?_⟩, hd⟩
    rw [Fhe.nextHandle_allow, Fhe.nextHandle_allow]
    refine Nat.le_trans (Nat.le_succ _) ?_
    exact addFold_nextHandle_mono (fun j => (s.records j).amount) _ (s.fhe.alloc 0)
  · rw [if_neg hd] at h; exact Option.noConfusion h

theorem calculateTotal_inv {rt : RecordType} {sender : Nat} {dids : List Nat}
    {pid : Nat} {s : ShadowLedger} {r : Nat} {s' : ShadowLedger}
    (hI : LedgerInv s) (h : calculateTotal rt sender dids pid s = some (r, s')) :
    LedgerInv s' := by
  obtain ⟨⟨f, hs, hmono⟩, _⟩ := calculateTotal_out h
  subst hs
  refine ⟨hI.counter_pos, hI.sys_exists, hI.sys_admin, hI.admin_mem,
    hI.sys_not_indexed, ?_⟩
  intro i hi1 hi2 hex
  exact Nat.lt_of_lt_of_le (hI.handles_lt i hi1 hi2 hex) hmono

theorem calculateNetIncome_inv {sender : Nat} {dids : List Nat} {pid : Nat}
    {s : ShadowLedger} {r : Nat} {s' : ShadowLedger}
    (hI : LedgerInv s) (h : calculateNetIncome sender dids pid s = some (r, s')) :
    LedgerInv s' := by
  unfold calculateNetIncome at h
  cases hInc : calculateTotalIncome s.thisAddr dids pid s with
  | none => rw [hInc] at h; exact Option.noConfusion h
  | some p =>
    obtain ⟨ri, s1⟩ := p
    rw [hInc] at h
    dsimp only at h
    cases hExp : calculateTotalExpense s1.thisAddr dids pid s1 with
    | none => rw [hExp] at h; exact Option.noConfusion h
    | some q =>
      obtain ⟨re, s2⟩ := q
      rw [hExp] at h
      dsimp only at h
      simp only [Option.some.injEq, Prod.mk.injEq] at h
      obtain ⟨hr, hs⟩ := h
      subst hs
      have hI1 : LedgerInv s1 := calculateTotal_inv hI hInc
      have hI2 : LedgerInv s2 := calculateTotal_inv hI1 hExp
      refine ⟨hI2.counter_pos, hI2.sys_exists, hI2.sys_admin, hI2.admin_mem,
        hI2.sys_not_indexed, ?_⟩
      intro i hi1 hi2 hex
      simp only at hi2 hex ⊢
      simp only [Fhe.subH]
      refine Nat.lt_succ_of_lt ?_
      exact hI2.handles_lt i hi1 hi2 hex

/-- Every reachable state satisfies the ledger invariant. -/
theorem reachable_inv {s : ShadowLedger} (hs : Reachable s) : LedgerInv s := by
  induction hs with
  | deployed deployer thisAddr ts => exact construct_inv deployer thisAddr ts
  | step c s s' _ hstep ih =>
      cases c with
      | createDepartment sender name admin ts =>
          simp only [stepCall, Option.map_eq_some'] at hstep
          obtain ⟨⟨r, s''⟩, hcall, hsnd⟩ := hstep
          exact hsnd ▸ createDepartment_inv ih hcall
      | addDepartmentMember sender d m =>
          exact addDepartmentMember_inv ih hstep
      | removeDepartmentMember sender d m =>
          exact removeDepartmentMember_inv ih hstep
      | createRecord sender rt v pok d pid desc ts =>
          simp only [stepCall, Option.map_eq_some'] at hstep
          obtain ⟨⟨r, s''⟩, hcall, hsnd⟩ := hstep
          exact hsnd ▸ createRecord_inv ih hcall
      | addAuditor sender a =>
          exact addAuditor_inv ih hstep
      | removeAuditor sender a =>
          exact removeAuditor_inv ih hstep
      | saveCalculation sender ct v pok ds ps desc ts =>
          simp only [stepCall, Option.map_eq_some'] at hstep
          obtain ⟨⟨r, s''⟩, hcall, hsnd⟩ := hstep
          exact hsnd ▸ saveCalculation_inv ih hcall
      | calculateTotalIncome sender ds pid =>
          simp only [stepCall, Option.map_eq_some'] at hstep
          obtain ⟨⟨r, s''⟩, hcall, hsnd⟩ := hstep
          exact hsnd ▸ calculateTotal_inv ih hcall
      | calculateTotalExpense sender ds pid =>
          simp only [stepCall, Option.map_eq_some'] at hstep
          obtain ⟨⟨r, s''⟩, hcall, hsnd⟩ := hstep
          exact hsnd ▸ calculateTotal_inv ih hcall
      | calculateNetIncome sender ds pid =>
          simp only [stepCall, Option.map_eq_some'] at hstep
          obtain ⟨⟨r, s''⟩, hcall, hsnd⟩ := hstep
          exact hsnd ▸ calculateNetIncome_inv ih hcall

/-! ### The paginated scan -/

theorem pageScan_go (p : Nat → Bool) (limit : Nat) :
    ∀ (l : List Nat) (skipped offset : Nat) (acc : List Nat), skipped ≤ offset →
      (l.foldl (fun (st : Nat × List Nat) i =>
          if st.2.length < limit && p i then
            if st.1 < offset then (st.1 + 1, st.2) else (st.1, st.2 ++ [i])
          else st) (skipped, acc)).2
      = acc ++ ((l.filter p).drop (offset - skipped)).take (limit - acc.length) := by
  intro l
  induction l with
  | nil =>
      intro skipped offset acc hso
      simp
  | cons i t ih =>
      intro skipped offset acc hso
      rw [List.foldl_cons]
      dsimp only
      by_cases hp : p i = true
      · by_cases hlen : acc.length < limit
        · by_cases hskip : skipped < offset
          · have hstep : (if acc.length < limit && p i then
                if skipped < offset then (skipped + 1, acc) else (skipped, acc ++ [i])
              else (skipped, acc)) = (skipped + 1, acc) := by
              simp [hp, hlen, hskip]
            rw [hstep, ih (skipped + 1) offset acc hskip, List.filter_cons, if_pos hp]
            have hd : offset - skipped = (offset - (skipped + 1)) + 1 := by omega
            rw [hd, List.drop_succ_cons]
          · have hstep : (if acc.length < limit && p i then
                if skipped < offset then (skipped + 1, acc) else (skipped, acc ++ [i])
              else (skipped, acc)) = (skipped, acc ++ [i]) := by
              simp [hp, hlen, hskip]
            rw [hstep, ih skipped offset (acc ++ [i]) hso, List.filter_cons, if_pos hp]
            have hd : offset - skipped = 0 := by omega
            rw [hd, List.drop_zero, List.drop_zero]
            have hk : limit - acc.length = (limit - (acc ++ [i]).length) + 1 := by
              simp only [List.length_append, List.length_cons, List.length_nil]
              omega
            rw [hk, List.take_succ_cons, List.append_assoc]
            rfl
        · have hstep : (if acc.length < limit && p i then
              if skipped < offset then (skipped + 1, acc) else (skipped, acc ++ [i])
            else (skipped, acc)) = (skipped, acc) := by
            simp [hlen]
          rw [hstep, ih skipped offset acc hso]
          have hk : limit - acc.length = 0 := by omega
          rw [hk]
          simp
      · have hstep : (if acc.length < limit && p i then
              if skipped < offset then (skipped + 1, acc) else (skipped, acc ++ [i])
            else (skipped, acc)) = (skipped, acc) := by
          simp [hp]
        rw [hstep, ih skipped offset acc hso, List.filter_cons, if_neg (by simp [hp])]

theorem pageScan_eq (p : Nat → Bool) (counter offset limit : Nat) :
    pageScan p counter offset limit =
      (((List.range' 1 counter).filter p).drop offset).take limit := by
  unfold pageScan
  rw [pageScan_go p limit (List.range' 1 counter) 0 offset [] (Nat.zero_le _)]
  simp

theorem W0_reachable : Reachable W0 := Reachable.deployed 100 55 0

theorem W1_reachable : Reachable W1 :=
  Reachable.step (Call.createDepartment 100 "Engineering" 2 1) W0 W1 W0_reachable rfl

theorem W2_reachable : Reachable W2 :=
  Reachable.step (Call.createDepartment 100 "Sales" 3 2) W1 W2 W1_reachable rfl

theorem W3_reachable : Reachable W3 :=
  Reachable.step (Call.createRecord 2 RecordType.Income 1000 true 2 0 "Income 1" 3)
    W2 W3 W2_reachable rfl

theorem W4_reachable : Reachable W4 :=
  Reachable.step (Call.createRecord 3 RecordType.Income 2000 true 3 0 "Income 2" 4)
    W3 W4 W3_reachable rfl

theorem W5_reachable : Reachable W5 :=
  Reachable.step (Call.createRecord 2 RecordType.Expense 500 true 2 0 "Expense 1" 5)
    W4 W5 W4_reachable rfl

theorem W6_reachable : Reachable W6 :=
  Reachable.step (Call.addDepartmentMember 2 2 4) W5 W6 W5_reachable rfl

/-! ### Claim theorems -/

/-- C2: in every reachable state, when every queried department id exists,
`calculateTotalIncome(departmentIds, projectId)` succeeds and the returned
handle decrypts to the sum, modulo `2^128`, of the plaintext amounts of
exactly those existing records whose department is in `departmentIds`,
whose type is Income, and which pass the project filter (`projectId == 0`
or equal `projectId`); in particular 1000 in department A and 2000 in
department B aggregate to 3000 (see the witness). -/
theorem calculateTotalIncome_sums_matching_records (s : ShadowLedger)
    (hs : Reachable s) (sender : Nat) (dids : List Nat) (pid : Nat)
    (hd : ∀ d ∈ dids, (s.departments d).dexists = true) :
    ∃ h s', calculateTotalIncome sender dids pid s = some (h, s') ∧
      s'.fhe.val h = matchSum s dids pid RecordType.Income % M128 := by
  obtain ⟨h, f, hcalc, hval, _⟩ :=
    calculateTotal_spec RecordType.Income sender dids pid s
      (reachable_inv hs).handles_lt
      (List.all_eq_true.mpr fun d hdm => hd d hdm)
  exact ⟨h, { s with fhe := f }, hcalc, hval⟩

theorem calculateTotalIncome_sums_matching_records_witness :
    (∀ d ∈ [2, 3], ((W4).departments d).dexists = true) ∧
    ∃ h s', calculateTotalIncome 2 [2, 3] 0 W4 = some (h, s') ∧
      s'.fhe.val h = 3000 := by
  refine ⟨by decide, ?_⟩
  obtain ⟨h, s', heq, hval⟩ :=
    calculateTotalIncome_sums_matching_records W4 W4_reachable 2 [2, 3] 0 (by decide)
  refine ⟨h, s', heq, ?_⟩
  rw [hval]
  decide

/-- C3: in every reachable state, when every queried department id exists,
`calculateNetIncome` succeeds and its handle decrypts to the wrapping
(modulo `2^128`, fixed-width unsigned) difference of the total income and
total expense over the same filters: adding the total expense back, modulo
`2^128`, recovers the total income, so a net-negative difference wraps
around instead of being signed, saturating, or trapping. -/
theorem calculateNetIncome_wrapping_difference (s : ShadowLedger)
    (hs : Reachable s) (sender : Nat) (dids : List Nat) (pid : Nat)
    (hd : ∀ d ∈ dids, (s.departments d).dexists = true) :
    ∃ h s', calculateNetIncome sender dids pid s = some (h, s') ∧
      s'.fhe.val h =
        (matchSum s dids pid RecordType.Income % M128 +
          (M128 - matchSum s dids pid RecordType.Expense % M128)) % M128 ∧
      (s'.fhe.val h + matchSum s dids pid RecordType.Expense) % M128 =
        matchSum s dids pid RecordType.Income % M128 := by
  have hI := reachable_inv hs
  have hall : dids.all (fun d => (s.departments d).dexists) = true :=
    List.all_eq_true.mpr fun d hdm => hd d hdm
  obtain ⟨hInc, f1, hcalc1, hval1, hmono1, hlt1, hpres1, hbnd1, -, -⟩ :=
    calculateTotal_spec RecordType.Income s.thisAddr dids pid s
      hI.handles_lt hall
  have hb1 : ∀ i, 1 ≤ i → i ≤ ({ s with fhe := f1 } : ShadowLedger).recordCounter →
      (({ s with fhe := f1 } : ShadowLedger).records i).rexists = true →
      (({ s with fhe := f1 } : ShadowLedger).records i).amount <
        ({ s with fhe := f1 } : ShadowLedger).fhe.nextHandle := by
    intro i h1 h2 hex
    exact Nat.lt_of_lt_of_le (hI.handles_lt i h1 h2 hex) hmono1
  obtain ⟨hExp, f2, hcalc2, hval2, hmono2, hlt2, hpres2, hbnd2, -, -⟩ :=
    calculateTotal_spec RecordType.Expense
      ({ s with fhe := f1 } : ShadowLedger).thisAddr dids pid
      ({ s with fhe := f1 } : ShadowLedger) hb1 hall
  have hms : matchSum ({ s with fhe := f1 } : ShadowLedger) dids pid RecordType.Expense
      = matchSum s dids pid RecordType.Expense := by
    unfold matchSum
    refine congrArg List.sum (List.map_congr_left ?_)
    intro j hj
    obtain ⟨hjr, hjm⟩ := List.mem_filter.mp hj
    obtain ⟨hj1, hj2⟩ := List.mem_range'_1.mp hjr
    exact hpres1 _ (hI.handles_lt j hj1 (by dsimp only at hj2; omega)
      (rexists_of_recordMatches hjm))
  have hvInc : f2.val hInc = matchSum s dids pid RecordType.Income % M128 := by
    rw [hpres2 hInc hlt1]
    exact hval1
  have hvExp : f2.val hExp = matchSum s dids pid RecordType.Expense % M128 := by
    rw [hval2, hms]
  unfold calculateNetIncome calculateTotalIncome calculateTotalExpense
  rw [hcalc1]
  dsimp only
  rw [hcalc2]
  dsimp only
  refine ⟨_, _, rfl, ?_, ?_⟩
  · dsimp only [Fhe.subH]
    rw [Fhe.val_allow, Fhe.val_allow, Fhe.val_alloc_self, hvInc, hvExp,
      Nat.mod_mod_of_dvd _ dvd_rfl]
  · dsimp only [Fhe.subH]
    rw [Fhe.val_allow, Fhe.val_allow, Fhe.val_alloc_self, hvInc, hvExp,
      Nat.mod_mod_of_dvd _ dvd_rfl]
    have he : matchSum s dids pid RecordType.Expense % M128 < M128 :=
      Nat.mod_lt _ M128_pos
    have hsub : (M128 - matchSum s dids pid RecordType.Expense % M128) +
        matchSum s dids pid RecordType.Expense % M128 = M128 :=
      Nat.sub_add_cancel (Nat.le_of_lt he)
    have hdm : M128 * (matchSum s dids pid RecordType.Expense / M128) +
        matchSum s dids pid RecordType.Expense % M128 =
        matchSum s dids pid RecordType.Expense :=
      Nat.div_add_mod _ M128
    rw [Nat.mod_add_mod,
      show matchSum s dids pid RecordType.Income % M128 +
          (M128 - matchSum s dids pid RecordType.Expense % M128) +
          matchSum s dids pid RecordType.Expense
        = matchSum s dids pid RecordType.Income % M128 +
          M128 * (matchSum s dids pid RecordType.Expense / M128) + M128 from by omega,
      Nat.add_mod_right, Nat.add_mul_mod_self_left, Nat.mod_mod_of_dvd _ dvd_rfl]

theorem calculateNetIncome_wrapping_difference_witness :
    (∀ d ∈ [2], (W5.departments d).dexists = true) ∧
    ∃ h s', calculateNetIncome 2 [2] 0 W5 = some (h, s') ∧ s'.fhe.val h = 500 := by
  refine ⟨by decide, ?_⟩
  obtain ⟨h, s', heq, hval, -⟩ :=
    calculateNetIncome_wrapping_difference W5 W5_reachable 2 [2] 0 (by decide)
  refine ⟨h, s', heq, ?_⟩
  rw [hval]
  decide

/-- A successful `createRecord` adds decrypt grants only for the contract
itself and the calling creator: any other principal keeps exactly the
grants it had. -/
theorem createRecord_acl_frame {c : Nat} {rt : RecordType} {v : Nat} {pok : Bool}
    {d pid : Nat} {desc : String} {ts rid : Nat} {t s2 : ShadowLedger}
    (hcr : createRecord c rt v pok d pid desc ts t = some (rid, s2))
    {p : Nat} (hcp : c ≠ p) (htp : t.thisAddr ≠ p) :
    ∀ h, (s2.fhe.HasGrant h p ↔ t.fhe.HasGrant h p) := by
  unfold createRecord at hcr
  by_cases k1 : isDepartmentMember t c d = true
  · rw [if_pos k1] at hcr
    by_cases k2 : (t.departments d).dexists = true
    · rw [if_pos k2] at hcr
      by_cases k3 : desc = ""
      · rw [if_pos k3] at hcr; exact Option.noConfusion hcr
      rw [if_neg k3] at hcr
      by_cases k4 : pok = true
      · rw [if_pos k4] at hcr
        simp only [Option.some.injEq, Prod.mk.injEq] at hcr
        obtain ⟨hrid, hs2⟩ := hcr
        subst hs2
        intro h
        unfold Fhe.HasGrant
        by_cases k5 : t.departmentAdmins d = c
        · simp [k5, Prod.ext_iff, Ne.symm hcp, Ne.symm htp]
        · simp [k5, Prod.ext_iff, Ne.symm hcp, Ne.symm htp]
      · rw [if_neg k4] at hcr; exact Option.noConfusion hcr
    · rw [if_neg k2] at hcr; exact Option.noConfusion hcr
  · rw [if_neg k1] at hcr; exact Option.noConfusion hcr

/-- C4: `addAuditor(p)` succeeds exactly when the caller is the system
admin, `p` is not the null principal, and `p` is not already an auditor;
on success it marks `p` as auditor and grants `p` decrypt capability on
the amount of every record existing at that moment, while a later
`createRecord` by a caller other than `p` (and with `p` not the contract)
adds no grant for `p`. -/
theorem addAuditor_correct (s : ShadowLedger) (sender p : Nat) :
    ((addAuditor sender p s).isSome = true ↔
      sender = s.systemAdmin ∧ p ≠ 0 ∧ s.auditors p = false) ∧
    (∀ s', addAuditor sender p s = some s' →
      s'.auditors p = true ∧
      (∀ i, 1 ≤ i → i ≤ s.recordCounter → (s.records i).rexists = true →
        s'.fhe.HasGrant ((s.records i).amount) p) ∧
      (∀ c rt v pok d pid desc ts rid s'',
        createRecord c rt v pok d pid desc ts s' = some (rid, s'') →
        c ≠ p → s'.thisAddr ≠ p →
        ∀ h, (s''.fhe.HasGrant h p ↔ s'.fhe.HasGrant h p))) := by
  constructor
  · unfold addAuditor
    by_cases h1 : sender = s.systemAdmin
    · by_cases h2 : p = 0
      · simp [h1, h2]
      · by_cases h3 : s.auditors p = true
        · simp [h1, h2, h3]
        · simp [h1, h2, h3, Bool.not_eq_true]
    · simp [h1]
  · intro s' h
    unfold addAuditor at h
    by_cases h1 : sender = s.systemAdmin
    · rw [if_pos h1] at h
      by_cases h2 : p = 0
      · rw [if_pos h2] at h; exact Option.noConfusion h
      rw [if_neg h2] at h
      by_cases h3 : s.auditors p = true
      · rw [if_pos h3] at h; exact Option.noConfusion h
      rw [if_neg h3] at h
      simp only [Option.some.injEq] at h
      subst h
      refine ⟨by simp, ?_, ?_⟩
      · intro i hi1 hi2 hex
        unfold Fhe.HasGrant
        exact (allowFold_acl (fun i => (s.records i).amount)
            (fun i => (s.records i).rexists) p
            (List.range' 1 s.recordCounter) s.fhe).2 i
          (List.mem_range'_1.mpr ⟨hi1, by omega⟩) hex
      · intro c rt v pok d pid desc ts rid s'' hcr hcp htp
        exact createRecord_acl_frame hcr hcp htp
    · rw [if_neg h1] at h; exact Option.noConfusion h

theorem addAuditor_correct_witness :
    addAuditor 100 4 W4 = some W4A ∧
    W4A.auditors 4 = true ∧
    W4A.fhe.HasGrant ((W4.records 1).amount) 4 ∧
    W4A.fhe.HasGrant ((W4.records 2).amount) 4 := by
  have heq : addAuditor 100 4 W4 = some W4A := rfl
  obtain ⟨hflag, hgr, -⟩ := (addAuditor_correct W4 100 4).2 W4A heq
  exact ⟨heq, hflag, hgr 1 (by decide) (by decide) (by decide),
    hgr 2 (by decide) (by decide) (by decide)⟩

/-- C5: when the caller is the system admin and `p` is currently an
auditor, `removeAuditor(p)` succeeds, clears only the `isAuditor` flag of
`p`, and changes nothing else: the whole FHE state — in particular the
`(handle, principal)` grant relation, so every previously issued decrypt
capability of `p` — together with all records, departments, calculations,
counters, reverse indexes, and every other principal's auditor status is
untouched. -/
theorem removeAuditor_frame (s : ShadowLedger) (sender p : Nat)
    (hsender : sender = s.systemAdmin) (hp : s.auditors p = true) :
    ∃ s', removeAuditor sender p s = some s' ∧
      s'.auditors p = false ∧
      s'.fhe = s.fhe ∧
      (∀ h, s'.fhe.HasGrant h p ↔ s.fhe.HasGrant h p) ∧
      s'.records = s.records ∧
      s'.departments = s.departments ∧
      s'.calculations = s.calculations ∧
      s'.userDepartments = s.userDepartments ∧
      s'.departmentAdmins = s.departmentAdmins ∧
      s'.recordCounter = s.recordCounter ∧
      s'.departmentCounter = s.departmentCounter ∧
      s'.calculationCounter = s.calculationCounter ∧
      s'.systemAdmin = s.systemAdmin ∧
      s'.thisAddr = s.thisAddr ∧
      (∀ q, q ≠ p → s'.auditors q = s.auditors q) := by
  refine ⟨{ s with auditors := fun a => if a = p then false else s.auditors a },
    ?_, by simp, rfl, fun h => Iff.rfl, rfl, rfl, rfl, rfl, rfl, rfl, rfl, rfl,
    rfl, rfl, ?_⟩
  · unfold removeAuditor
    rw [if_pos hsender, if_pos hp]
  · intro q hq
    simp [hq]

theorem removeAuditor_frame_witness :
    ∃ s', removeAuditor 100 4 W4A = some s' ∧ s'.auditors 4 = false ∧
      s'.fhe = W4A.fhe := by
  obtain ⟨s', heq, hfalse, hfhe, -⟩ :=
    removeAuditor_frame W4A 100 4 (by decide) (by decide)
  exact ⟨s', heq, hfalse, hfhe⟩

/-- C7: for an existing department, `removeDepartmentMember(dept, admin)`
with the department's own admin as the member to remove always reverts,
whoever the caller is, and the caller-observed state — in particular the
member list and the admin's reverse index — is unchanged. -/
theorem removeDepartmentMember_admin_always_fails (s : ShadowLedger)
    (sender dept : Nat) (hex : (s.departments dept).dexists = true) :
    removeDepartmentMember sender dept ((s.departments dept).admin) s = none ∧
    (removeDepartmentMember sender dept ((s.departments dept).admin) s).getD s = s ∧
    (((removeDepartmentMember sender dept ((s.departments dept).admin) s).getD
        s).departments dept).members = (s.departments dept).members ∧
    ((removeDepartmentMember sender dept ((s.departments dept).admin) s).getD
        s).userDepartments ((s.departments dept).admin) =
      s.userDepartments ((s.departments dept).admin) := by
  have hnone : removeDepartmentMember sender dept ((s.departments dept).admin) s
      = none := by
    unfold removeDepartmentMember
    by_cases h1 : s.departmentAdmins dept = sender
    · rw [if_pos h1, if_pos hex]
      by_cases h3 : isDepartmentMember s ((s.departments dept).admin) dept = true
      · rw [if_pos h3, if_pos rfl]
      · rw [if_neg h3]
    · rw [if_neg h1]
  refine ⟨hnone, ?_, ?_, ?_⟩ <;> rw [hnone] <;> rfl

theorem removeDepartmentMember_admin_always_fails_witness :
    removeDepartmentMember 2 2 ((W1.departments 2).admin) W1 = none :=
  (removeDepartmentMember_admin_always_fails W1 2 2 (by decide)).1

/-- C6: called by a member of an existing department over N matching
records, `getDepartmentRecords(dept, offset, limit)` succeeds and returns
exactly the ascending list of matching record ids with the first `offset`
matches skipped and at most `limit` collected: its length is
`min limit (N - offset)` (so it is empty when `offset ≥ N`), and the ids
are strictly increasing, i.e. in ascending creation order. -/
theorem getDepartmentRecords_paginates (s : ShadowLedger)
    (sender dept offset limit : Nat)
    (hmem : isDepartmentMember s sender dept = true) :
    ∃ ids, getDepartmentRecords sender dept offset limit s = some ids ∧
      ids = (((List.range' 1 s.recordCounter).filter
          (fun i => (s.records i).rexists &&
            ((s.records i).departmentId == dept))).drop offset).take limit ∧
      ids.length = min limit
        (((List.range' 1 s.recordCounter).filter
          (fun i => (s.records i).rexists &&
            ((s.records i).departmentId == dept))).length - offset) ∧
      (((List.range' 1 s.recordCounter).filter
          (fun i => (s.records i).rexists &&
            ((s.records i).departmentId == dept))).length ≤ offset → ids = []) ∧
      List.Pairwise (· < ·) ids := by
  have hex : (s.departments dept).dexists = true := by
    by_cases hc : (s.departments dept).dexists = false
    · unfold isDepartmentMember at hmem
      rw [if_pos hc] at hmem
      exact absurd hmem (by simp)
    · revert hc
      cases (s.departments dept).dexists <;> simp
  unfold getDepartmentRecords
  rw [if_pos hmem, if_pos hex]
  refine ⟨_, rfl, pageScan_eq _ _ _ _, ?_, ?_, ?_⟩
  · rw [pageScan_eq, List.length_take, List.length_drop]
  · intro hno
    rw [pageScan_eq, List.drop_eq_nil_of_le hno, List.take_nil]
  · rw [pageScan_eq]
    refine List.Pairwise.sublist ?_ (List.pairwise_lt_range' 1 s.recordCounter 1)
    exact ((List.take_sublist _ _).trans (List.drop_sublist _ _)).trans
      (List.filter_sublist _)

theorem getDepartmentRecords_paginates_witness :
    isDepartmentMember W5 2 2 = true ∧
    ∃ ids, getDepartmentRecords 2 2 1 5 W5 = some ids ∧ ids = [3] ∧
      ids.length = 1 := by
  refine ⟨by decide, ?_⟩
  obtain ⟨ids, heq, hval, hlen, -, -⟩ :=
    getDepartmentRecords_paginates W5 2 2 1 5 (by decide)
  refine ⟨ids, heq, ?_, ?_⟩
  · rw [hval]; decide
  · rw [hlen]; decide

/-- C8 (amended): in every reachable state, every existing department
other than the pre-created System department (id 1) has its admin in its
member list, the admin having been inserted as the sole initial member by
`createDepartment`; the System department is the exception — the
constructor seeds it with an empty member list (see the counterexample),
its admin counting as a member only through the admin branch of
`_isDepartmentMember`. -/
theorem admin_in_members_except_system (s : ShadowLedger) (hs : Reachable s) :
    ∀ d, d ≠ 1 → (s.departments d).dexists = true →
      (s.departments d).admin ∈ (s.departments d).members :=
  (reachable_inv hs).admin_mem

/-- C8 (counterexample to the claim as stated): in the freshly deployed —
hence reachable — state, the System department (id 1) exists but its admin
is not an element of its member list. -/
theorem system_admin_not_in_members_counterexample :
    Reachable W0 ∧ (W0.departments 1).dexists = true ∧
      (W0.departments 1).admin ∉ (W0.departments 1).members :=
  ⟨Reachable.deployed 100 55 0, by decide, by decide⟩

theorem admin_in_members_except_system_witness :
    (W1.departments 2).admin ∈ (W1.departments 2).members :=
  admin_in_members_except_system W1 W1_reachable 2 (by decide) (by decide)

/-- C10: in every reachable state the reverse index of the system admin
never contains the System department id 1, even though
`_isDepartmentMember(systemAdmin, 1)` is always true: the constructor
omits the reverse-index push and no later call can add it, so the
user-to-departments index stays permanently inconsistent with the
membership predicate for the pre-created department. -/
theorem system_dept_reverse_index_inconsistent (s : ShadowLedger)
    (hs : Reachable s) :
    (1 : Nat) ∉ getUserDepartments s s.systemAdmin ∧
      isDepartmentMember s s.systemAdmin 1 = true := by
  have hI := reachable_inv hs
  refine ⟨hI.sys_not_indexed, ?_⟩
  unfold isDepartmentMember
  rw [hI.sys_exists]
  rw [if_neg (by decide : ¬ (true = false))]
  rw [hI.sys_admin, if_pos rfl]

theorem system_dept_reverse_index_inconsistent_witness :
    (1 : Nat) ∉ getUserDepartments W2 W2.systemAdmin ∧
      isDepartmentMember W2 W2.systemAdmin 1 = true :=
  system_dept_reverse_index_inconsistent W2 W2_reachable

theorem calculateTotal_isSome (rt : RecordType) (sender : Nat) (dids : List Nat)
    (pid : Nat) (s : ShadowLedger) :
    (calculateTotal rt sender dids pid s).isSome = true ↔
      dids.all (fun d => (s.departments d).dexists) = true := by
  unfold calculateTotal
  by_cases hd : dids.all (fun d => (s.departments d).dexists) = true
  · rw [if_pos hd]
    simp [hd]
  · rw [if_neg hd]
    simp [hd]

/-- C9: every operation of the core is atomic: a call succeeds exactly
when its precondition `Pre` (the conjunction of the source's `require`
clauses) holds, and a failed call leaves the caller-observed state — every
counter, mapping, and grant — exactly as it was. -/
theorem stepCall_atomic (c : Call) (s : ShadowLedger) :
    ((stepCall c s).isSome = true ↔ Pre c s = true) ∧
    (stepCall c s = none → (stepCall c s).getD s = s) := by
  refine ⟨?_, fun h => by rw [h]; rfl⟩
  cases c with
  | createDepartment sender name admin ts =>
      simp only [stepCall, Pre, Option.isSome_map']
      unfold createDepartment
      by_cases h1 : sender = s.systemAdmin
      · by_cases h2 : name = ""
        · simp [h1, h2]
        · by_cases h3 : admin = 0
          · simp [h1, h2, h3]
          · simp [h1, h2, h3]
      · simp [h1]
  | addDepartmentMember sender d m =>
      simp only [stepCall, Pre]
      unfold addDepartmentMember
      by_cases k1 : s.departmentAdmins d = sender
      · by_cases k2 : (s.departments d).dexists = true
        · by_cases k3 : m = 0
          · simp [k1, k2, k3]
          · by_cases k4 : isDepartmentMember s m d = true
            · simp [k1, k2, k3, k4]
            · simp [k1, k2, k3, k4]
        · simp [k1, k2]
      · simp [k1]
  | removeDepartmentMember sender d m =>
      simp only [stepCall, Pre]
      unfold removeDepartmentMember
      by_cases k1 : s.departmentAdmins d = sender
      · by_cases k2 : (s.departments d).dexists = true
        · by_cases k3 : isDepartmentMember s m d = true
          · by_cases k4 : m = (s.departments d).admin
            · simp [k1, k2, k3, k4]
            · simp [k1, k2, k3, k4]
          · simp [k1, k2, k3]
        · simp [k1, k2]
      · simp [k1]
  | createRecord sender rt v pok d pid desc ts =>
      simp only [stepCall, Pre, Option.isSome_map']
      unfold createRecord
      by_cases k1 : isDepartmentMember s sender d = true
      · by_cases k2 : (s.departments d).dexists = true
        · by_cases k3 : desc = ""
          · simp [k1, k2, k3]
          · by_cases k4 : pok = true
            · simp [k1, k2, k3, k4]
            · simp [k1, k2, k3, k4]
        · simp [k1, k2]
      · simp [k1]
  | addAuditor sender a =>
      simp only [stepCall, Pre]
      unfold addAuditor
      by_cases k1 : sender = s.systemAdmin
      · by_cases k2 : a = 0
        · simp [k1, k2]
        · by_cases k3 : s.auditors a = true
          · simp [k1, k2, k3]
          · simp [k1, k2, k3]
      · simp [k1]
  | removeAuditor sender a =>
      simp only [stepCall, Pre]
      unfold removeAuditor
      by_cases k1 : sender = s.systemAdmin
      · by_cases k2 : s.auditors a = true
        · simp [k1, k2]
        · simp [k1, k2]
      · simp [k1]
  | saveCalculation sender ct v pok ds ps desc ts =>
      simp only [stepCall, Pre, Option.isSome_map']
      unfold saveCalculation
      by_cases k1 : pok = true
      · simp [k1]
      · simp [k1]
  | calculateTotalIncome sender ds pid =>
      simp only [stepCall, Pre, Option.isSome_map']
      exact calculateTotal_isSome RecordType.Income sender ds pid s
  | calculateTotalExpense sender ds pid =>
      simp only [stepCall, Pre, Option.isSome_map']
      exact calculateTotal_isSome RecordType.Expense sender ds pid s
  | calculateNetIncome sender ds pid =>
      simp only [stepCall, Pre, Option.isSome_map']
      constructor
      · intro hsome
        by_cases hd : ds.all (fun d => (s.departments d).dexists) = true
        · exact hd
        · exfalso
          unfold calculateNetIncome calculateTotalIncome at hsome
          have hnone : calculateTotal RecordType.Income s.thisAddr ds pid s = none := by
            cases hq : calculateTotal RecordType.Income s.thisAddr ds pid s with
            | none => rfl
            | some q =>
                have hq2 := (calculateTotal_isSome RecordType.Income
                  s.thisAddr ds pid s).mp (by rw [hq]; rfl)
                exact absurd hq2 hd
          rw [hnone] at hsome
          simp at hsome
      · intro hd
        unfold calculateNetIncome calculateTotalIncome calculateTotalExpense
        obtain ⟨p, hp⟩ := Option.isSome_iff_exists.mp
          ((calculateTotal_isSome RecordType.Income s.thisAddr ds pid s).mpr hd)
        obtain ⟨ri, s1⟩ := p
        rw [hp]
        dsimp only
        obtain ⟨⟨f, hs1, -⟩, -⟩ := calculateTotal_out hp
        subst hs1
        obtain ⟨q, hq⟩ := Option.isSome_iff_exists.mp
          ((calculateTotal_isSome RecordType.Expense s.thisAddr ds pid
            { s with fhe := f }).mpr hd)
        obtain ⟨re, s2⟩ := q
        dsimp only
        rw [hq]
        dsimp only
        rfl

theorem stepCall_atomic_witness :
    stepCall (Call.removeAuditor 7 9) W0 = none ∧
    Pre (Call.removeAuditor 7 9) W0 = false ∧
    (stepCall (Call.removeAuditor 7 9) W0).getD W0 = W0 :=
  ⟨rfl, by decide, (stepCall_atomic (Call.removeAuditor 7 9) W0).2 rfl⟩

/-- C1 (code evidence): a record created by a department member who is not
the department admin receives decrypt grants only for the contract and the
creator — the department admin (here principal 2, distinct from creator 4)
receives none.  The source's conditional grant fires only when the admin
IS the creator, where it merely re-grants the creator. -/
theorem createRecord_no_admin_grant :
    ∃ s', createRecord 4 RecordType.Income 700 true 2 0 "Income by member" 6 W6
        = some (4, s') ∧
      (s'.departments 2).admin = 2 ∧
      (s'.records 4).creator = 4 ∧
      s'.fhe.HasGrant ((s'.records 4).amount) 4 ∧
      s'.fhe.HasGrant ((s'.records 4).amount) s'.thisAddr ∧
      ¬ s'.fhe.HasGrant ((s'.records 4).amount) 2 := by
  refine ⟨stepD (Call.createRecord 4 RecordType.Income 700 true 2 0
      "Income by member" 6) W6,
    rfl, by decide, by decide, by decide, by decide, by decide⟩
